import Mathlib

/-!
Verification of the librarian-bot retrieval/aggregation/summarization pipeline.

JavaScript strings are modelled as `List Char`; JavaScript `null`/`undefined`
string fields are modelled as `Option (List Char)`; numeric scores are
modelled as exact rationals.  All definitions are transcribed from the
JavaScript source (`src/llmClient.js`, `src/slackApiClient.js`,
`src/slashCommands.js`, the OpenAI provider).
-/

namespace Librarian

/-- Convert a Lean string literal to the `List Char` model of a JS string. -/
def str (s : String) : List Char := s.data

/-- The character class of the JS regex `\s` (restricted to ASCII, which is
all that occurs in the modelled inputs). -/
def jsWs (c : Char) : Bool :=
  c = ' ' || c = '\t' || c = '\n' || c = '\r' || c = '\x0b' || c = '\x0c'

/-- The character class of the JS regex `.` without the dotall flag:
any character except a line terminator. -/
def jsDot (c : Char) : Bool := !(c = '\n' || c = '\r')

/-- The character class of the JS regex `[\d.]`. -/
def numChar (c : Char) : Bool := c.isDigit || c = '.'

/-- JS `String.prototype.toLowerCase` (basic-latin range, as relevant here). -/
def lowerStr (s : List Char) : List Char := s.map Char.toLower

/-- JS `String.prototype.trim`: drop whitespace from both ends. -/
def jsTrim (s : List Char) : List Char :=
  ((s.dropWhile jsWs).reverse.dropWhile jsWs).reverse

/-- JS `String.prototype.split` with a one-character separator class:
`"".split(sep) = [""]`, adjacent separators produce empty pieces. -/
def jsSplitP (isSep : Char → Bool) : List Char → List (List Char)
  | [] => [[]]
  | c :: t =>
    let r := jsSplitP isSep t
    if isSep c then [] :: r
    else
      match r with
      | [] => [[c]]
      | p :: ps => (c :: p) :: ps

/-- JS `String.prototype.includes`: substring containment
(the empty string is contained in everything). -/
def containsSub (s sub : List Char) : Bool :=
  match s with
  | [] => sub.isEmpty
  | _ :: t => sub.isPrefixOf s || containsSub t sub

/-- JS `a || b` for a string `a` (empty string is falsy). -/
def jsOrStr (s d : List Char) : List Char := if s.isEmpty then d else s

/-- JS `a || b` where `a` is a nullable string field. -/
def jsOrOpt (o : Option (List Char)) (d : List Char) : List Char :=
  match o with
  | some s => jsOrStr s d
  | none => d

/-!
A small backtracking regex engine, specialised to the pattern shapes used in
`parseResponse`.  Semantics follow the JS engine: alternatives and quantifier
lengths are tried in backtracking priority order, and the first full match
wins.
-/

/-- One item of a regex pattern, as used by the parser's patterns. -/
inductive RItem where
  /-- A literal string. -/
  | lit : List Char → RItem
  /-- `\s*`, greedy. -/
  | ws : RItem
  /-- A capturing lazy `(.*?)` under the dotall flag. -/
  | lazyAll : RItem
  /-- A capturing lazy `(.*?)` without the dotall flag. -/
  | lazyLine : RItem
  /-- A non-capturing alternation of literals, e.g. `(?:Link|URL|Permalink)`. -/
  | altLit : List (List Char) → RItem
  /-- A capturing greedy `([\d.]+)`. -/
  | numPlus : RItem
  /-- `(?:\n|$)`. -/
  | nlOrEnd : RItem

/-- The ways one item can consume a prefix of `s`, in backtracking priority
order; each candidate is an optional capture plus the remaining suffix. -/
def candidates : RItem → List Char → List (Option (List Char) × List Char)
  | .lit w, s => if w.isPrefixOf s then [(none, s.drop w.length)] else []
  | .ws, s =>
    let k := (s.takeWhile jsWs).length
    ((List.range (k + 1)).reverse).map (fun i => (none, s.drop i))
  | .lazyAll, s =>
    (List.range (s.length + 1)).map (fun i => (some (s.take i), s.drop i))
  | .lazyLine, s =>
    let m := (s.takeWhile jsDot).length
    (List.range (m + 1)).map (fun i => (some (s.take i), s.drop i))
  | .altLit ws, s =>
    ws.filterMap (fun w =>
      if w.isPrefixOf s then some (none, s.drop w.length) else none)
  | .numPlus, s =>
    let k := (s.takeWhile numChar).length
    ((List.range k).reverse).map (fun i => (some (s.take (i + 1)), s.drop (i + 1)))
  | .nlOrEnd, s =>
    (match s with
     | '\n' :: t => [(none, t)]
     | _ => []) ++ (if s.isEmpty then [(none, s)] else [])

/-- Try each candidate in order, committing to the first one after which the
rest of the pattern also matches. -/
def tryCands (next : List Char → Option (List (List Char) × List Char)) :
    List (Option (List Char) × List Char) → Option (List (List Char) × List Char)
  | [] => none
  | (cap, suf) :: more =>
    match next suf with
    | some (caps, rem) =>
      some (match cap with | some c => c :: caps | none => caps, rem)
    | none => tryCands next more

/-- Match a whole pattern at the start of `s`, returning the captures (in
pattern order) and the remaining suffix of the first match found in
backtracking order. -/
def matchItems : List RItem → List Char → Option (List (List Char) × List Char)
  | [], s => some ([], s)
  | it :: rest, s => tryCands (fun suf => matchItems rest suf) (candidates it s)

/-- Leftmost match: try each start position from the left. -/
def findMatch (pat : List RItem) : List Char → Option (List (List Char) × List Char)
  | [] => matchItems pat []
  | s@(_ :: t) =>
    match matchItems pat s with
    | some r => some r
    | none => findMatch pat t

/-- The `exec` loop of a `/g` regex: collect successive leftmost matches,
resuming after each match.  All patterns used here consume at least one
character per match, so `fuel = s.length + 1` never runs out. -/
def execAll (pat : List RItem) : Nat → List Char → List (List (List Char))
  | 0, _ => []
  | fuel + 1, s =>
    match findMatch pat s with
    | none => []
    | some (caps, rem) => caps :: execAll pat fuel rem

/-!  Data model: messages, threads and thread summaries.  -/

/-- A fetched Slack message (`slackApiClient.searchMessages` output shape):
`ts`, `text`, a nullable `permalink` and a nullable `thread_ts`. -/
structure Msg where
  ts : List Char
  text : List Char
  permalink : Option (List Char)
  thread_ts : Option (List Char)
deriving DecidableEq

/-- A thread group as built in `slashCommands.handleSearchCommand`:
the accumulated messages plus the first grouped message's permalink. -/
structure Thread where
  messages : List Msg
  permalink : Option (List Char)
deriving DecidableEq

/-- A parsed thread summary (`parseResponse` output shape).  The JS float
`relevanceScore` is modelled as an exact rational. -/
structure Summary where
  summary : List Char
  permalink : List Char
  relevanceScore : ℚ
deriving DecidableEq

/-- JS `parseFloat` restricted to inputs drawn from `[\d.]+` (the only inputs
it receives in `parseResponse`): the longest prefix of the form
`digits [. digits]` is parsed; `none` models `NaN`. -/
def parseFloatNum (s : List Char) : Option ℚ :=
  let intPart := s.takeWhile Char.isDigit
  let rest := s.drop intPart.length
  let intVal : ℕ := intPart.foldl (fun acc c => 10 * acc + (c.toNat - 48)) 0
  match rest with
  | '.' :: rest2 =>
    let fracPart := rest2.takeWhile Char.isDigit
    let fracVal : ℕ := fracPart.foldl (fun acc c => 10 * acc + (c.toNat - 48)) 0
    if intPart.isEmpty && fracPart.isEmpty then none
    else some ((intVal : ℚ) + (fracVal : ℚ) / (10 ^ fracPart.length : ℕ))
  | _ => if intPart.isEmpty then none else some (intVal : ℚ)

/-!  The Response Parser (`llmClient.parseResponse`).  -/

/-- The strict block pattern
`/Summary:\s*(.*?)\s*(?:Link|URL|Permalink):\s*(.*?)\s*(?:Score|Relevance):\s*([\d.]+)/gs`. -/
def strictPat : List RItem :=
  [.lit (str "Summary:"), .ws, .lazyAll, .ws,
   .altLit [str "Link", str "URL", str "Permalink"], .lit (str ":"), .ws,
   .lazyAll, .ws, .altLit [str "Score", str "Relevance"], .lit (str ":"),
   .ws, .numPlus]

/-- `/Summary:\s*(.*?)(?:\n|$)/`. -/
def summaryLinePat : List RItem :=
  [.lit (str "Summary:"), .ws, .lazyLine, .nlOrEnd]

/-- `/(?:Link|URL|Permalink):\s*(.*?)(?:\n|$)/`. -/
def linkLinePat : List RItem :=
  [.altLit [str "Link", str "URL", str "Permalink"], .lit (str ":"), .ws,
   .lazyLine, .nlOrEnd]

/-- `/(?:Score|Relevance):\s*([\d.]+)(?:\n|$)/`. -/
def scoreLinePat : List RItem :=
  [.altLit [str "Score", str "Relevance"], .lit (str ":"), .ws, .numPlus,
   .nlOrEnd]

/-- Length of a separator match of `/\n\n+|\r\n\r\n+|---+/` at the head of
`s` (alternatives tried in order, quantifiers greedy). -/
def sepMatchAt (s : List Char) : Option Nat :=
  match s with
  | '\n' :: '\n' :: t => some (2 + (t.takeWhile (· = '\n')).length)
  | '\r' :: '\n' :: '\r' :: '\n' :: t => some (4 + (t.takeWhile (· = '\n')).length)
  | '-' :: '-' :: '-' :: t => some (3 + (t.takeWhile (· = '-')).length)
  | _ => none

/-- JS `response.split(/\n\n+|\r\n\r\n+|---+/)`: scan left to right, cutting
at each leftmost separator match. -/
def splitBlocksGo : Nat → List Char → List Char → List (List Char)
  | _, acc, [] => [acc]
  | 0, acc, s => [acc ++ s]
  | fuel + 1, acc, s@(c :: t) =>
    match sepMatchAt s with
    | some k => acc :: splitBlocksGo fuel [] (s.drop k)
    | none => splitBlocksGo fuel (acc ++ [c]) t

/-- Split a response into blocks on blank-line or dashed-rule separators. -/
def splitBlocks (s : List Char) : List (List Char) :=
  splitBlocksGo (s.length + 1) [] s

/-- Strategy 1 of `parseResponse`: repeated strict blocks. -/
def parseStrict (response : List Char) (threads : List Thread) : List Summary :=
  (execAll strictPat (response.length + 1) response).filterMap fun caps =>
    match caps with
    | [g1, g2, g3] =>
      let summary := jsTrim g1
      let permalink := jsTrim g2
      if summary.isEmpty then none
      else
        some
          { summary := summary
            permalink :=
              jsOrStr permalink
                (jsOrOpt (threads.head?.bind (·.permalink)) (str "https://slack.com"))
            relevanceScore := (parseFloatNum g3).getD (1/2 : ℚ) }
    | _ => none

/-- Strategy 2 of `parseResponse`, applied to one block: the three line
sub-patterns, tolerating missing link and score. -/
def parseBlock (threads : List Thread) (block : List Char) : Option Summary :=
  let summaryMatch := findMatch summaryLinePat block
  let linkMatch := findMatch linkLinePat block
  let scoreMatch := findMatch scoreLinePat block
  match summaryMatch with
  | some ([g1], _) =>
    if g1.isEmpty then none
    else
      some
        { summary := jsTrim g1
          permalink :=
            match linkMatch with
            | some ([gl], _) =>
              if gl.isEmpty then
                jsOrOpt (threads.head?.bind (·.permalink)) (str "https://slack.com")
              else jsTrim gl
            | _ => jsOrOpt (threads.head?.bind (·.permalink)) (str "https://slack.com")
          relevanceScore :=
            match scoreMatch with
            | some ([gs], _) => (parseFloatNum gs).getD (1/2 : ℚ)
            | _ => (1/2 : ℚ) }
  | _ => none

/-- Strategy 2 of `parseResponse`: loose block split. -/
def parseLoose (response : List Char) (threads : List Thread) : List Summary :=
  (splitBlocks response).filterMap (parseBlock threads)

/-- JS `Array.prototype.map((x, index) => ...)`, with an explicit start
index to allow recursion. -/
def mapWithIdx {α β : Type} (f : Nat → α → β) : Nat → List α → List β
  | _, [] => []
  | i, a :: as => f i a :: mapWithIdx f (i + 1) as

/-- One synthesized fallback summary (strategy 3 of `parseResponse`). -/
def fallbackOne (i : Nat) (t : Thread) : Summary :=
  { summary :=
      str "Thread with " ++ (toString t.messages.length).data ++ str " messages"
    permalink := jsOrOpt t.permalink (str "https://slack.com")
    relevanceScore := (9/10 : ℚ) - (i : ℚ) * (1/5 : ℚ) }

/-- Strategy 3 of `parseResponse`: synthesized fallback summaries from the
first three fallback threads, scores `0.9 - 0.2 * index`. -/
def fallbackSummaries (threads : List Thread) : List Summary :=
  mapWithIdx fallbackOne 0 (threads.take 3)

/-- `llmClient.parseResponse`: strict strategy, then loose strategy if the
strict one produced nothing, then fallback synthesis if both produced
nothing. -/
def parseResponse (response : List Char) (threads : List Thread) : List Summary :=
  let s1 := parseStrict response threads
  let summaries := if s1.isEmpty then parseLoose response threads else s1
  if summaries.isEmpty then fallbackSummaries threads else summaries

/-!  The Topic Filter (`slackApiClient.searchMessages`, filter step).  -/

/-- The filter predicate of `searchMessages`: lower-case the text, split the
lower-cased topic on `' '`, and require every term to be a substring. -/
def matchesMsg (text topic : List Char) : Bool :=
  let t := lowerStr text
  (jsSplitP (· = ' ') (lowerStr topic)).all fun term => containsSub t term

/-- `allMessages.filter(msg => ...)` with the topic predicate. -/
def filterByTopic (msgs : List Msg) (topic : List Char) : List Msg :=
  msgs.filter fun m => matchesMsg m.text topic

/-!  The Paged History Fetcher (`searchMessages`, pagination loop).  The
upstream API is modelled as the list of pages it would serve in order; an
exhausted page list models the absence of a `next_cursor`.  -/

/-- The `while (hasMore && allMessages.length < maxMessages)` loop:
the cap is checked before each page fetch, and a fetched page is appended
whole. -/
def fetchMessagesGo {α : Type} (maxMessages : Nat) :
    List (List α) → List α → List α
  | [], acc => acc
  | p :: rest, acc =>
    if acc.length < maxMessages then fetchMessagesGo maxMessages rest (acc ++ p)
    else acc

/-- Raw messages retrieved by the pagination loop of `searchMessages`. -/
def fetchMessages {α : Type} (pages : List (List α)) (maxMessages : Nat) : List α :=
  fetchMessagesGo maxMessages pages []

/-!  The Thread Aggregator (`slashCommands.handleSearchCommand`).  -/

/-- The grouping key: `msg.thread_ts || msg.ts`. -/
def threadKey (m : Msg) : List Char := jsOrOpt m.thread_ts m.ts

/-- A thread group together with its grouping key (a JS object entry). -/
structure KThread where
  key : List Char
  messages : List Msg
  permalink : Option (List Char)
deriving DecidableEq

/-- Insert one message into the ordered group list: append to its group's
messages, or open a new group (with this message's permalink) at the end. -/
def addMsg (gs : List KThread) (m : Msg) : List KThread :=
  match gs with
  | [] => [⟨threadKey m, [m], m.permalink⟩]
  | g :: rest =>
    if g.key = threadKey m then ⟨g.key, g.messages ++ [m], g.permalink⟩ :: rest
    else g :: addMsg rest m

/-- `messages.forEach(...)` grouping by thread key, in first-seen key order
(JS object insertion order). -/
def aggregate (msgs : List Msg) : List KThread := msgs.foldl addMsg []

/-- Stable insertion (descending by message count): the inserted thread —
which precedes the rest in input order — lands before the first thread with
at most as many messages, so ties keep input order. -/
def insertDesc (t : KThread) : List KThread → List KThread
  | [] => [t]
  | h :: rest =>
    if h.messages.length ≤ t.messages.length then t :: h :: rest
    else h :: insertDesc t rest

/-- The stable sort `threads.sort((a, b) => b.messages.length - a.messages.length)`. -/
def sortThreads (ts : List KThread) : List KThread := ts.foldr insertDesc []

/-- `Object.values(threads).sort(...).slice(0, maxThreads)`. -/
def rank (ts : List KThread) (k : Nat) : List KThread := (sortThreads ts).take k

/-!  The Link Validator and the Summarization Orchestrator
(`llmClient.generateThreadSummaries`, OpenAI provider `callLLM`).  -/

/-- The `isValidUrl` check of `generateThreadSummaries`: a present,
non-empty string starting with `http://` or `https://` and containing
neither `[` nor `]`. -/
def acceptLink (l : Option (List Char)) : Bool :=
  match l with
  | none => false
  | some s =>
    !s.isEmpty &&
      ((str "http://").isPrefixOf s || (str "https://").isPrefixOf s) &&
      !s.contains '[' && !s.contains ']'

/-- The post-parse permalink substitution of `generateThreadSummaries`:
an invalid permalink at position `index` is replaced by the permalink of
thread `min index (threads.length - 1)`, or by a generic placeholder when
that thread has none.  On an empty thread list the JS code dereferences
`undefined` and throws, modelled as `.error`. -/
def validateOneE (threads : List Thread) (i : Nat) (s : Summary) :
    Except Unit Summary :=
  if acceptLink (some s.permalink) then Except.ok s
  else
    let threadIndex := min i (threads.length - 1)
    match threads[threadIndex]? with
    | none => Except.error ()
    | some t =>
      Except.ok
        { s with
            permalink :=
              jsOrOpt t.permalink
                (str "https://slack.com/thread-" ++ (toString threadIndex).data) }

/-- The indexed `summaries.map(...)` of `generateThreadSummaries`; a thrown
`TypeError` aborts the whole map. -/
def validatePermalinksGo (threads : List Thread) :
    Nat → List Summary → Except Unit (List Summary)
  | _, [] => Except.ok []
  | i, s :: rest =>
    match validateOneE threads i s with
    | Except.error e => Except.error e
    | Except.ok v =>
      match validatePermalinksGo threads (i + 1) rest with
      | Except.error e => Except.error e
      | Except.ok vs => Except.ok (v :: vs)

def validatePermalinks (summaries : List Summary) (threads : List Thread) :
    Except Unit (List Summary) :=
  validatePermalinksGo threads 0 summaries

/-- The effective per-summary behaviour of the Link Validator on a
non-empty thread list: keep an accepted link, otherwise substitute the
permalink of thread `min i (threads.length - 1)`, falling back to the
generic `https://slack.com/thread-N` placeholder. -/
def substLink (ts : List Thread) (i : Nat) (s : Summary) : Summary :=
  if acceptLink (some s.permalink) then s
  else
    { s with
        permalink :=
          jsOrOpt (ts[min i (ts.length - 1)]?.getD ⟨[], none⟩).permalink
            (str "https://slack.com/thread-" ++
              (toString (min i (ts.length - 1))).data) }

/-- `parseResponse` as invoked by the orchestrator, where the response may be
`undefined` (modelled `none`): `exec` coerces `undefined` to the string
`"undefined"` (which the strict pattern never matches), the later
`response.split` throws a `TypeError` that the parser's own `try/catch`
swallows, and the fallback branch runs. -/
def parseResponseJS (response : Option (List Char)) (threads : List Thread) :
    List Summary :=
  match response with
  | some s => parseResponse s threads
  | none =>
    let s1 := parseStrict (str "undefined") threads
    if s1.isEmpty then fallbackSummaries threads else s1

/-- An upstream failure of one LLM API attempt: an HTTP status, or a
connection-level error (`ECONNABORTED`/`ETIMEDOUT`/`ECONNRESET`). -/
inductive LLMError where
  | http : Nat → LLMError
  | conn : LLMError
deriving DecidableEq

/-- The retryable conditions of `llmClient.handleError`. -/
def retryable : LLMError → Bool
  | .http s => s == 429 || s == 500 || s == 503
  | .conn => true

/-- `llmClient.handleError`: on a retryable error below the retry cap, sleep
`retryDelay * 2^retryCount` and report `true`; otherwise throw (all
non-retry branches throw a mapped error). -/
def handleError (e : LLMError) (retryCount maxRetries retryDelay : Nat) :
    Except LLMError Nat :=
  if retryCount < maxRetries && retryable e then
    Except.ok (retryDelay * 2 ^ retryCount)
  else Except.error e

/-- The retry loop of the provider's `callLLM`, with the upstream modelled as
`attempt : Nat → Except LLMError response`.  Returns the result (`none`
models the `undefined` value produced when the `while` loop falls through
with every attempt failed) together with the list of back-off sleeps
performed.  `fuel` equals `maxRetries - retryCount` throughout, so fuel
exhaustion is exactly the `while` guard turning false. -/
def callLLMGo (attempt : Nat → Except LLMError (List Char))
    (maxRetries retryDelay : Nat) :
    Nat → Nat → Except LLMError (Option (List Char)) × List Nat
  | _, 0 => (Except.ok none, [])
  | retryCount, fuel + 1 =>
    match attempt retryCount with
    | Except.ok response => (Except.ok (some response), [])
    | Except.error e =>
      match handleError e retryCount maxRetries retryDelay with
      | Except.ok delay =>
        let r := callLLMGo attempt maxRetries retryDelay (retryCount + 1) fuel
        (r.1, delay :: r.2)
      | Except.error e2 => (Except.error e2, [])

/-- `callLLM(prompt)` of the OpenAI provider: the retry loop started at
`retryCount = 0`. -/
def callLLM (attempt : Nat → Except LLMError (List Char))
    (maxRetries retryDelay : Nat) :
    Except LLMError (Option (List Char)) × List Nat :=
  callLLMGo attempt maxRetries retryDelay 0 maxRetries

/-- The `catch` fallback of `generateThreadSummaries`:
`Thread about "topic" with N messages.`. -/
def errorFallbackOne (topic : List Char) (i : Nat) (t : Thread) : Summary :=
  { summary :=
      str "Thread about \x22" ++ topic ++ str "\x22 with " ++
        (toString t.messages.length).data ++ str " messages."
    permalink := jsOrOpt t.permalink (str "https://slack.com")
    relevanceScore := (9/10 : ℚ) - (i : ℚ) * (1/5 : ℚ) }

def errorFallback (threads : List Thread) (topic : List Char) : List Summary :=
  mapWithIdx (errorFallbackOne topic) 0 (threads.take 3)

/-- `generateThreadSummaries` (non-debug path): call the LLM through the
retry loop, parse, validate permalinks; any thrown error lands in the
`catch` fallback.  Also returns the back-off sleep trace. -/
def generateThreadSummaries (attempt : Nat → Except LLMError (List Char))
    (maxRetries retryDelay : Nat) (threads : List Thread) (topic : List Char) :
    List Summary × List Nat :=
  let r := callLLM attempt maxRetries retryDelay
  match r.1 with
  | Except.error _ => (errorFallback threads topic, r.2)
  | Except.ok response =>
    match validatePermalinks (parseResponseJS response threads) threads with
    | Except.ok l => (l, r.2)
    | Except.error _ => (errorFallback threads topic, r.2)

/-!  Concrete scenario data used by the test-property claims.  -/

/-- A generic message for building concrete scenarios. -/
def exMsg : Msg := ⟨str "100.1", str "hello", none, none⟩

/-- A pair of fallback threads with distinct permalinks. -/
def exThreads : List Thread :=
  [⟨[exMsg], some (str "https://t1.example")⟩,
   ⟨[exMsg], some (str "https://t2.example")⟩]

/-- Raw AI text with one well-formed block and one block missing its link
line (the C8 scenario). -/
def c8raw : List Char :=
  str "Summary: A\nLink: https://a.example\nScore: 0.9\n\nSummary: B\nScore: 0.8\n"

/-- Raw AI text whose two blocks both lack a link line. -/
def c8rawNoLinks : List Char :=
  str "Summary: A\nScore: 0.9\n\nSummary: B\nScore: 0.8\n"

/-- A thread group of `n` copies of the generic message. -/
def exKT (key : String) (n : Nat) : KThread :=
  ⟨str key, List.replicate n exMsg, none⟩

/-- Four thread groups of sizes 5, 3, 2, 2 (the C4 scenario). -/
def c4threads : List KThread :=
  [exKT "a" 5, exKT "b" 3, exKT "c" 2, exKT "d" 2]

/-- An upstream that fails every attempt with HTTP 503. -/
def all503 : Nat → Except LLMError (List Char) :=
  fun _ => Except.error (LLMError.http 503)

/-- An upstream that returns a parseable response carrying a relevance score
of 99. -/
def bigScoreAttempt : Nat → Except LLMError (List Char) :=
  fun _ => Except.ok (str "Summary: A Link: http://x Score: 99")

/-- Two full API pages (the C7 counterexample input). -/
def c7pages : List (List Msg) :=
  [List.replicate 100 exMsg, List.replicate 100 exMsg]

/-!  ## Topic Filter: lemmas and claims C2, C10  -/

theorem toLower_space_iff (c : Char) : Char.toLower c = ' ' ↔ c = ' ' := by
  constructor
  · intro h
    by_cases hc : c.toNat ≥ 65 ∧ c.toNat ≤ 90
    · exfalso
      have h' : Char.ofNat (c.toNat + 32) = ' ' := by
        have hu : Char.toLower c = Char.ofNat (c.toNat + 32) := by
          simp [Char.toLower, hc]
        rw [hu] at h
        exact h
      obtain ⟨h1, h2⟩ := hc
      set n := Char.toNat c with hn
      interval_cases n <;> exact absurd h' (by decide)
    · have hu : Char.toLower c = c := by
        simp only [Char.toLower]
        rw [if_neg hc]
      rw [hu] at h
      exact h
  · intro h
    subst h
    decide

theorem jsSplitP_ne_nil (p : Char → Bool) (s : List Char) : jsSplitP p s ≠ [] := by
  cases s with
  | nil => simp [jsSplitP]
  | cons c t =>
    by_cases hc : p c = true
    · simp [jsSplitP, hc]
    · simp only [jsSplitP, hc, if_false, Bool.false_eq_true]
      cases h : jsSplitP p t <;> simp

theorem jsSplitP_cons_sep (p : Char → Bool) (c : Char) (t : List Char)
    (h : p c = true) : jsSplitP p (c :: t) = [] :: jsSplitP p t := by
  simp [jsSplitP, h]

theorem jsSplitP_cons_nosep (p : Char → Bool) (c : Char) (t : List Char)
    (p0 : List Char) (ps : List (List Char)) (h : p c = false)
    (h2 : jsSplitP p t = p0 :: ps) :
    jsSplitP p (c :: t) = (c :: p0) :: ps := by
  simp [jsSplitP, h, h2]

theorem lowerStr_splitP (s : List Char) :
    jsSplitP (fun c => c = ' ') (lowerStr s) =
      (jsSplitP (fun c => c = ' ') s).map lowerStr := by
  induction s with
  | nil => simp [jsSplitP, lowerStr]
  | cons c t ih =>
    by_cases hc : c = ' '
    · have hl : Char.toLower c = ' ' := (toLower_space_iff c).mpr hc
      have e1 : jsSplitP (fun c => c = ' ') (lowerStr (c :: t)) =
          [] :: jsSplitP (fun c => c = ' ') (lowerStr t) :=
        jsSplitP_cons_sep _ (Char.toLower c) (lowerStr t) (by simp [hl])
      have e2 : jsSplitP (fun c => c = ' ') (c :: t) =
          [] :: jsSplitP (fun c => c = ' ') t :=
        jsSplitP_cons_sep _ c t (by simp [hc])
      rw [e1, e2, ih, List.map_cons]
      rfl
    · have hl : ¬Char.toLower c = ' ' := fun h => hc ((toLower_space_iff c).mp h)
      obtain ⟨p0, ps, h⟩ :
          ∃ p0 ps, jsSplitP (fun c => c = ' ') t = p0 :: ps := by
        cases h : jsSplitP (fun c => c = ' ') t with
        | nil => exact absurd h (jsSplitP_ne_nil _ _)
        | cons a b => exact ⟨a, b, rfl⟩
      have h2 : jsSplitP (fun c => c = ' ') (lowerStr t) =
          lowerStr p0 :: ps.map lowerStr := by
        rw [ih, h, List.map_cons]
      have e1 : jsSplitP (fun c => c = ' ') (lowerStr (c :: t)) =
          (Char.toLower c :: lowerStr p0) :: ps.map lowerStr :=
        jsSplitP_cons_nosep _ (Char.toLower c) (lowerStr t) _ _ (by simp [hl]) h2
      have e2 : jsSplitP (fun c => c = ' ') (c :: t) = (c :: p0) :: ps :=
        jsSplitP_cons_nosep _ c t _ _ (by simp [hc]) h
      rw [e1, e2, List.map_cons]
      rfl

/-- C2 counterexample: the claim quantifies over every topic string using
whitespace-splitting, but the code splits on the space character only; for
the topic `"a\tb"` every whitespace-split term is a substring of the text
`"a b"`, yet the filter rejects the message. -/
theorem matches_whitespace_counterexample :
    matchesMsg (str "a b") (str "a\tb") = false ∧
    (jsSplitP (fun c => c.isWhitespace) (str "a\tb")).all
      (fun term => containsSub (lowerStr (str "a b")) (lowerStr term)) = true := by
  with_unfolding_all decide

/-- C2 (amended): `matches(message, topic)` returns true iff every
lower-cased term of the topic split on the single space character is a
substring of the lower-cased message text; topic `"release dates"` matches
text `"the Release Dates are set"` but not `"release schedule"`. -/
theorem matches_space_split_spec :
    (∀ text topic : List Char,
      matchesMsg text topic = true ↔
        ∀ term ∈ jsSplitP (fun c => c = ' ') topic,
          containsSub (lowerStr text) (lowerStr term) = true) ∧
    matchesMsg (str "the Release Dates are set") (str "release dates") = true ∧
    matchesMsg (str "release schedule") (str "release dates") = false := by
  refine ⟨?_, by with_unfolding_all decide, by with_unfolding_all decide⟩
  intro text topic
  unfold matchesMsg
  rw [lowerStr_splitP]
  simp [List.all_eq_true]

theorem containsSub_nil (s : List Char) : containsSub s [] = true := by
  cases s <;> simp [containsSub, List.isPrefixOf]

theorem all_space_split (topic : List Char) (h : ∀ c ∈ topic, c = ' ') :
    ∀ t ∈ jsSplitP (fun c => c = ' ') (lowerStr topic), t = [] := by
  induction topic with
  | nil =>
    intro t ht
    simp [lowerStr, jsSplitP] at ht
    exact ht
  | cons c rest ih =>
    have hc : c = ' ' := h c (by simp)
    subst hc
    intro t ht
    have e1 : jsSplitP (fun c => c = ' ') (lowerStr (' ' :: rest)) =
        [] :: jsSplitP (fun c => c = ' ') (lowerStr rest) :=
      jsSplitP_cons_sep _ (Char.toLower ' ') (lowerStr rest) (by decide)
    rw [e1] at ht
    simp only [List.mem_cons] at ht
    rcases ht with rfl | ht
    · rfl
    · exact ih (fun c hc => h c (List.mem_cons_of_mem _ hc)) t ht

/-- C10: the empty topic (and any all-space topic) matches every message
text, so `searchMessages` with such a topic keeps all retrieved messages. -/
theorem empty_topic_matches_all :
    (∀ text : List Char, matchesMsg text [] = true) ∧
    (∀ topic : List Char, (∀ c ∈ topic, c = ' ') →
      ∀ text : List Char, matchesMsg text topic = true) ∧
    (∀ msgs : List Msg, filterByTopic msgs [] = msgs) := by
  have key : ∀ topic : List Char, (∀ c ∈ topic, c = ' ') →
      ∀ text : List Char, matchesMsg text topic = true := by
    intro topic h text
    unfold matchesMsg
    rw [List.all_eq_true]
    intro term hterm
    rw [all_space_split topic h term hterm]
    exact containsSub_nil _
  refine ⟨fun text => key [] (by simp) text, key, fun msgs => ?_⟩
  apply List.filter_eq_self.mpr
  intro m _
  exact key [] (by simp) m.text

/-- Witness for C10 at the one-space topic. -/
theorem empty_topic_matches_all_witness :
    matchesMsg (str "anything") (str " ") = true :=
  empty_topic_matches_all.2.1 (str " ") (by decide) (str "anything")

/-!  ## Thread Aggregator: claims C3, C4  -/

theorem addMsg_bind_perm (gs : List KThread) (m : Msg) :
    ((addMsg gs m).flatMap (fun g => g.messages)).Perm
      (gs.flatMap (fun g => g.messages) ++ [m]) := by
  induction gs with
  | nil => simp [addMsg]
  | cons g rest ih =>
    by_cases h : g.key = threadKey m
    · simp only [addMsg, h, if_true, List.flatMap_cons, if_pos]
      rw [List.append_assoc, List.append_assoc]
      exact List.Perm.append_left g.messages List.perm_append_comm
    · simp only [addMsg, h, if_false, List.flatMap_cons]
      rw [List.append_assoc]
      exact List.Perm.append_left g.messages ih

theorem foldl_addMsg_bind_perm (msgs : List Msg) : ∀ gs : List KThread,
    ((msgs.foldl addMsg gs).flatMap (fun g => g.messages)).Perm
      (gs.flatMap (fun g => g.messages) ++ msgs) := by
  induction msgs with
  | nil => intro gs; simp
  | cons m rest ih =>
    intro gs
    have h1 := ih (addMsg gs m)
    have h2 := (addMsg_bind_perm gs m).append_right rest
    have h3 : (List.foldl addMsg gs (m :: rest)) =
        List.foldl addMsg (addMsg gs m) rest := rfl
    rw [h3]
    refine h1.trans (h2.trans ?_)
    rw [List.append_assoc]
    exact List.Perm.refl _

theorem addMsg_keys (gs : List KThread) (m : Msg)
    (h : ∀ g ∈ gs, ∀ x ∈ g.messages, threadKey x = g.key) :
    ∀ g ∈ addMsg gs m, ∀ x ∈ g.messages, threadKey x = g.key := by
  induction gs with
  | nil =>
    intro g hg x hx
    simp only [addMsg, List.mem_singleton] at hg
    subst hg
    simp only [List.mem_singleton] at hx
    subst hx
    rfl
  | cons g0 rest ih =>
    intro g hg x hx
    by_cases hk : g0.key = threadKey m
    · simp only [addMsg, hk, if_pos, List.mem_cons] at hg
      rcases hg with rfl | hg
      · simp only [List.mem_append, List.mem_singleton] at hx
        rcases hx with hx | rfl
        · exact (h g0 (List.mem_cons_self _ _) x hx).trans hk
        · rfl
      · exact h g (List.mem_cons_of_mem _ hg) x hx
    · simp only [addMsg, hk, if_false, List.mem_cons] at hg
      rcases hg with rfl | hg
      · exact h g (List.mem_cons_self _ _) x hx
      · exact ih (fun g1 hg1 => h g1 (List.mem_cons_of_mem _ hg1)) g hg x hx

theorem foldl_addMsg_keys (msgs : List Msg) : ∀ gs : List KThread,
    (∀ g ∈ gs, ∀ x ∈ g.messages, threadKey x = g.key) →
    ∀ g ∈ msgs.foldl addMsg gs, ∀ x ∈ g.messages, threadKey x = g.key := by
  induction msgs with
  | nil => intro gs h; exact h
  | cons m rest ih =>
    intro gs h
    exact ih (addMsg gs m) (addMsg_keys gs m h)

/-- C3: on any non-empty message list, `aggregate` partitions the input:
the union of the groups' messages is the input, each message exactly once,
and every message sits in the group keyed by its thread root
(`thread_ts || ts`). -/
theorem aggregate_partition (msgs : List Msg) (h : msgs ≠ []) :
    ((aggregate msgs).flatMap (fun g => g.messages)).Perm msgs ∧
    (∀ g ∈ aggregate msgs, ∀ x ∈ g.messages, threadKey x = g.key) := by
  constructor
  · have h1 := foldl_addMsg_bind_perm msgs []
    simpa [aggregate] using h1
  · exact foldl_addMsg_keys msgs [] (by simp)

/-- Witness for C3: three messages, two threads. -/
theorem aggregate_partition_witness :
    ((aggregate
        [⟨str "1", str "a", none, none⟩,
         ⟨str "1.5", str "b", none, some (str "1")⟩,
         ⟨str "2", str "c", none, none⟩]).flatMap (fun g => g.messages)).Perm
      [⟨str "1", str "a", none, none⟩,
       ⟨str "1.5", str "b", none, some (str "1")⟩,
       ⟨str "2", str "c", none, none⟩] ∧
    (∀ g ∈ aggregate
        [⟨str "1", str "a", none, none⟩,
         ⟨str "1.5", str "b", none, some (str "1")⟩,
         ⟨str "2", str "c", none, none⟩],
      ∀ x ∈ g.messages, threadKey x = g.key) :=
  aggregate_partition _ (by simp)

theorem insertDesc_perm (t : KThread) (l : List KThread) :
    (insertDesc t l).Perm (t :: l) := by
  induction l with
  | nil => exact List.Perm.refl _
  | cons h rest ih =>
    by_cases hc : h.messages.length ≤ t.messages.length
    · simp only [insertDesc, hc, if_pos]
      exact List.Perm.refl _
    · simp only [insertDesc, hc, if_false]
      exact (ih.cons h).trans (List.Perm.swap t h rest)

theorem sortThreads_perm (l : List KThread) : (sortThreads l).Perm l := by
  induction l with
  | nil => exact List.Perm.refl _
  | cons a rest ih =>
    have h1 : sortThreads (a :: rest) = insertDesc a (sortThreads rest) := rfl
    rw [h1]
    exact (insertDesc_perm a (sortThreads rest)).trans (ih.cons a)

theorem insertDesc_sorted (t : KThread) (l : List KThread)
    (h : l.Pairwise (fun a b => b.messages.length ≤ a.messages.length)) :
    (insertDesc t l).Pairwise
      (fun a b => b.messages.length ≤ a.messages.length) := by
  induction l with
  | nil => simp [insertDesc]
  | cons h0 rest ih =>
    rw [List.pairwise_cons] at h
    obtain ⟨h1, h2⟩ := h
    by_cases hc : h0.messages.length ≤ t.messages.length
    · simp only [insertDesc, hc, if_pos]
      rw [List.pairwise_cons]
      refine ⟨?_, List.pairwise_cons.mpr ⟨h1, h2⟩⟩
      intro b hb
      rcases List.mem_cons.mp hb with rfl | hb
      · exact hc
      · exact le_trans (h1 b hb) hc
    · simp only [insertDesc, hc, if_false]
      rw [List.pairwise_cons]
      refine ⟨?_, ih h2⟩
      intro b hb
      rcases List.mem_cons.mp ((insertDesc_perm t rest).mem_iff.mp hb) with rfl | h3
      · omega
      · exact h1 b h3

theorem sortThreads_sorted (l : List KThread) :
    (sortThreads l).Pairwise
      (fun a b => b.messages.length ≤ a.messages.length) := by
  induction l with
  | nil => simp [sortThreads]
  | cons a rest ih => exact insertDesc_sorted a (sortThreads rest) ih

theorem insertDesc_filter (t : KThread) (l : List KThread) (n : Nat) :
    (insertDesc t l).filter (fun x => x.messages.length == n) =
      if t.messages.length == n
      then t :: l.filter (fun x => x.messages.length == n)
      else l.filter (fun x => x.messages.length == n) := by
  induction l with
  | nil =>
    by_cases ht : t.messages.length == n <;>
      simp [insertDesc, List.filter, ht]
  | cons h0 rest ih =>
    by_cases hc : h0.messages.length ≤ t.messages.length
    · simp only [insertDesc, hc, if_pos]
      by_cases ht : t.messages.length == n <;>
        simp [List.filter_cons, ht]
    · simp only [insertDesc, hc, if_false, List.filter_cons, ih]
      by_cases ht : t.messages.length == n
      · have hn : t.messages.length = n := by simpa using ht
        by_cases h0t : h0.messages.length == n
        · have hn0 : h0.messages.length = n := by simpa using h0t
          omega
        · simp [ht, h0t]
      · by_cases h0t : h0.messages.length == n <;> simp [ht, h0t]

theorem sortThreads_filter (l : List KThread) (n : Nat) :
    (sortThreads l).filter (fun x => x.messages.length == n) =
      l.filter (fun x => x.messages.length == n) := by
  induction l with
  | nil => rfl
  | cons a rest ih =>
    have h1 : sortThreads (a :: rest) = insertDesc a (sortThreads rest) := rfl
    rw [h1, insertDesc_filter, ih, List.filter_cons]

/-- C4: `rank(threads, k)` returns at most `k` threads, sorted by
descending message count, the sort being a permutation that preserves the
input order of threads with equal message count; on 4 threads of sizes
5, 3, 2, 2 with `maxThreads = 2` it returns the size-5 and size-3 threads
in that order. -/
theorem rank_spec :
    (∀ (ts : List KThread) (k : Nat),
      (rank ts k).length ≤ k ∧
      (rank ts k).Pairwise
        (fun a b => b.messages.length ≤ a.messages.length) ∧
      (sortThreads ts).Perm ts ∧
      (∀ n : Nat,
        (sortThreads ts).filter (fun t => t.messages.length == n) =
          ts.filter (fun t => t.messages.length == n)) ∧
      rank ts k = (sortThreads ts).take k) ∧
    rank c4threads 2 = [exKT "a" 5, exKT "b" 3] := by
  constructor
  · intro ts k
    refine ⟨?_, ?_, sortThreads_perm ts, sortThreads_filter ts, rfl⟩
    · simpa [rank] using List.length_take_le k (sortThreads ts)
    · exact (sortThreads_sorted ts).sublist (List.take_sublist k _)
  · with_unfolding_all decide

/-!  ## Response Parser totality: claim C1  -/

theorem mapWithIdx_length {α β : Type} (f : Nat → α → β) (l : List α) :
    ∀ i, (mapWithIdx f i l).length = l.length := by
  induction l with
  | nil => intro i; rfl
  | cons a as ih => intro i; simp [mapWithIdx, ih]

theorem mapWithIdx_fallback_scores (l : List Thread) :
    ∀ i, (mapWithIdx fallbackOne i l).map (fun s => s.relevanceScore) =
      (List.range' i l.length).map (fun j => (9/10 : ℚ) - (j : ℚ) * (1/5)) := by
  induction l with
  | nil => intro i; rfl
  | cons a as ih =>
    intro i
    simp only [mapWithIdx, List.map_cons, List.length_cons, List.range'_succ]
    rw [ih]
    rfl

theorem fallbackSummaries_scores (ts : List Thread) :
    (fallbackSummaries ts).map (fun s => s.relevanceScore) =
      (List.range (min 3 ts.length)).map
        (fun i => (9/10 : ℚ) - (i : ℚ) * (1/5)) := by
  unfold fallbackSummaries
  rw [mapWithIdx_fallback_scores, List.range_eq_range', List.length_take]

theorem fallbackSummaries_ne_nil (ts : List Thread) (h : ts ≠ []) :
    fallbackSummaries ts ≠ [] := by
  cases ts with
  | nil => exact absurd rfl h
  | cons a l =>
    simp [fallbackSummaries, List.take_succ_cons, mapWithIdx]

/-- C1: for every raw response text and non-empty fallback thread list,
`parseResponse` returns a non-empty list; and when both parsing strategies
yield nothing it returns one synthesized summary per fallback thread,
capped at 3, with scores `0.9, 0.7, 0.5, …` descending by input order. -/
theorem parse_total (r : List Char) (ts : List Thread) (h : ts ≠ []) :
    parseResponse r ts ≠ [] ∧
    (parseStrict r ts = [] → parseLoose r ts = [] →
      parseResponse r ts = fallbackSummaries ts ∧
      (parseResponse r ts).length = min 3 ts.length ∧
      (parseResponse r ts).map (fun s => s.relevanceScore) =
        (List.range (min 3 ts.length)).map
          (fun i => (9/10 : ℚ) - (i : ℚ) * (1/5))) := by
  constructor
  · cases hs : parseStrict r ts with
    | cons a l => simp [parseResponse, hs]
    | nil =>
      cases hl : parseLoose r ts with
      | cons a l => simp [parseResponse, hs, hl]
      | nil =>
        simp only [parseResponse, hs, hl, List.isEmpty_nil, if_true]
        exact fallbackSummaries_ne_nil ts h
  · intro h1 h2
    have e : parseResponse r ts = fallbackSummaries ts := by
      simp [parseResponse, h1, h2]
    refine ⟨e, ?_, ?_⟩
    · rw [e]
      unfold fallbackSummaries
      rw [mapWithIdx_length, List.length_take]
    · rw [e]
      exact fallbackSummaries_scores ts

/-- Witness for C1 at an unstructured raw text and one fallback thread. -/
theorem parse_total_witness :
    parseResponse (str "no recognizable structure") exThreads ≠ [] ∧
    (parseStrict (str "no recognizable structure") exThreads = [] →
      parseLoose (str "no recognizable structure") exThreads = [] →
      parseResponse (str "no recognizable structure") exThreads =
        fallbackSummaries exThreads ∧
      (parseResponse (str "no recognizable structure") exThreads).length =
        min 3 exThreads.length ∧
      (parseResponse (str "no recognizable structure") exThreads).map
          (fun s => s.relevanceScore) =
        (List.range (min 3 exThreads.length)).map
          (fun i => (9/10 : ℚ) - (i : ℚ) * (1/5))) :=
  parse_total (str "no recognizable structure") exThreads (by simp [exThreads])

/-!  ## Link Validator: claim C5  -/

theorem validatePermalinksGo_ok (ts : List Thread) (hts : ts ≠ []) :
    ∀ (ss : List Summary) (i : Nat),
      validatePermalinksGo ts i ss =
        Except.ok (mapWithIdx (substLink ts) i ss) := by
  intro ss
  induction ss with
  | nil => intro i; rfl
  | cons s rest ih =>
    intro i
    have hj : min i (ts.length - 1) < ts.length := by
      have := List.length_pos.mpr hts
      omega
    by_cases ha : acceptLink (some s.permalink) = true
    · simp only [validatePermalinksGo, validateOneE, ha, if_pos, if_true,
        mapWithIdx, ih (i + 1)]
      simp [substLink, ha]
    · simp only [validatePermalinksGo, validateOneE, ha, if_false, if_neg,
        mapWithIdx, List.getElem?_eq_getElem hj, ih (i + 1), Option.getD_some]
      simp [substLink, ha, List.getElem?_eq_getElem hj]

/-- C5: a candidate link is accepted iff it is a present string beginning
with `http://` or `https://` and containing neither `[` nor `]`; all the
listed example links behave as claimed; and every rejected link at position
`i` is replaced by the permalink of the corresponding thread
(`min i (threads.length - 1)`), or by the generic
`https://slack.com/thread-N` placeholder when that thread has no
permalink. -/
theorem link_validator_spec :
    (∀ l : Option (List Char),
      acceptLink l = true ↔
        ∃ s, l = some s ∧
          ((str "http://").isPrefixOf s = true ∨
            (str "https://").isPrefixOf s = true) ∧
          s.contains '[' = false ∧ s.contains ']' = false) ∧
    acceptLink (some (str "[permalink]")) = false ∧
    acceptLink (some (str "")) = false ∧
    acceptLink none = false ∧
    acceptLink (some (str "ftp://x")) = false ∧
    acceptLink (some (str "https://chat.example.com/archives/C1/p123")) = true ∧
    (∀ (ss : List Summary) (ts : List Thread), ts ≠ [] →
      validatePermalinks ss ts =
        Except.ok (mapWithIdx (substLink ts) 0 ss)) := by
  refine ⟨?_, by decide, by decide, by decide, by decide, by decide,
    fun ss ts hts => validatePermalinksGo_ok ts hts ss 0⟩
  intro l
  constructor
  · intro h
    match l with
    | none => exact absurd h (by decide)
    | some s =>
      simp only [acceptLink, Bool.and_eq_true, Bool.or_eq_true,
        Bool.not_eq_true'] at h
      obtain ⟨⟨⟨hne, hpre⟩, hc1⟩, hc2⟩ := h
      exact ⟨s, rfl, hpre, hc1, hc2⟩
  · rintro ⟨s, rfl, hpre, h1, h2⟩
    have hne : s.isEmpty = false := by
      rcases hpre with hp | hp
      · rcases List.isPrefixOf_iff_prefix.mp hp with ⟨t, rfl⟩
        rfl
      · rcases List.isPrefixOf_iff_prefix.mp hp with ⟨t, rfl⟩
        rfl
    simp only [acceptLink, Bool.and_eq_true, Bool.or_eq_true,
      Bool.not_eq_true']
    exact ⟨⟨⟨hne, hpre⟩, h1⟩, h2⟩

/-- Witness for C5: a two-element summary list against the example threads;
the second summary's bracketed placeholder is replaced by the second
thread's permalink. -/
theorem link_validator_spec_witness :
    validatePermalinks
        [⟨str "A", str "https://ok.example", 1/2⟩,
         ⟨str "B", str "[permalink]", 1/2⟩] exThreads =
      Except.ok (mapWithIdx (substLink exThreads) 0
        [⟨str "A", str "https://ok.example", 1/2⟩,
         ⟨str "B", str "[permalink]", 1/2⟩]) :=
  link_validator_spec.2.2.2.2.2.2
    [⟨str "A", str "https://ok.example", 1/2⟩,
     ⟨str "B", str "[permalink]", 1/2⟩] exThreads (by simp [exThreads])

/-!  ## Summarization Orchestrator retries: claim C6  -/

theorem parseStrict_undefined (ts : List Thread) :
    parseStrict (str "undefined") ts = [] := rfl

theorem mapWithIdx_map_eq {α β γ : Type} (f : Nat → α → β) (g : β → γ)
    (g' : α → γ) (hfg : ∀ i a, g (f i a) = g' a) :
    ∀ (l : List α) (i : Nat), (mapWithIdx f i l).map g = l.map g' := by
  intro l
  induction l with
  | nil => intro i; rfl
  | cons a as ih => intro i; simp [mapWithIdx, hfg, ih]

theorem substLink_summary (ts : List Thread) (i : Nat) (s : Summary) :
    (substLink ts i s).summary = s.summary := by
  unfold substLink
  split <;> rfl

theorem substLink_score (ts : List Thread) (i : Nat) (s : Summary) :
    (substLink ts i s).relevanceScore = s.relevanceScore := by
  unfold substLink
  split <;> rfl

/-- C6: with `maxRetries = 3` and every attempt failing with HTTP 503, the
retry loop performs exactly the three back-off sleeps `d, 2d, 4d`, no
exception escapes (the `while` loop falls through and `callLLM` resolves to
`undefined`), and the orchestrator returns the deterministic local fallback
summaries (their texts and scores are those of `fallbackSummaries`). -/
theorem orchestrator_503_fallback (d : Nat) (threads : List Thread)
    (topic : List Char) (h : threads ≠ []) :
    callLLM all503 3 d = (Except.ok none, [d, 2 * d, 4 * d]) ∧
    ∃ out,
      generateThreadSummaries all503 3 d threads topic =
        (out, [d, 2 * d, 4 * d]) ∧
      validatePermalinks (fallbackSummaries threads) threads = Except.ok out ∧
      out.map (fun s => s.summary) =
        (fallbackSummaries threads).map (fun s => s.summary) ∧
      out.map (fun s => s.relevanceScore) =
        (fallbackSummaries threads).map (fun s => s.relevanceScore) ∧
      out ≠ [] := by
  have hc : callLLM all503 3 d =
      (Except.ok none, [d * 2 ^ 0, d * 2 ^ 1, d * 2 ^ 2]) := rfl
  have hlist : [d * 2 ^ 0, d * 2 ^ 1, d * 2 ^ 2] = [d, 2 * d, 4 * d] := by
    norm_num [Nat.mul_comm]
  have hc2 : callLLM all503 3 d = (Except.ok none, [d, 2 * d, 4 * d]) := by
    rw [hc, hlist]
  refine ⟨hc2, ?_⟩
  have hp : parseResponseJS none threads = fallbackSummaries threads := by
    simp [parseResponseJS, parseStrict_undefined]
  have hv := validatePermalinksGo_ok threads h (fallbackSummaries threads) 0
  refine ⟨mapWithIdx (substLink threads) 0 (fallbackSummaries threads),
    ?_, hv, ?_, ?_, ?_⟩
  · simp [generateThreadSummaries, hc2, hp, validatePermalinks, hv]
  · exact mapWithIdx_map_eq _ _ _ (substLink_summary threads) _ 0
  · exact mapWithIdx_map_eq _ _ _ (substLink_score threads) _ 0
  · intro hnil
    have h1 := congrArg List.length hnil
    rw [mapWithIdx_length] at h1
    exact fallbackSummaries_ne_nil threads h (List.length_eq_zero.mp h1)

/-- Witness for C6 at `d = 7` and the example threads. -/
theorem orchestrator_503_fallback_witness :
    callLLM all503 3 7 = (Except.ok none, [7, 14, 28]) :=
  (orchestrator_503_fallback 7 exThreads (str "t")
    (by simp [exThreads])).1

/-!  ## Paged History Fetcher: claim C7  -/

/-- C7 counterexample: two full 100-message pages with `maxMessages = 150`
retrieve 200 raw messages, exceeding the cap. -/
theorem fetch_overshoot_counterexample :
    (fetchMessages c7pages 150).length = 200 ∧
    ¬((fetchMessages c7pages 150).length ≤ 150) := by
  with_unfolding_all decide

theorem fetchMessagesGo_bound {α : Type} (mm : Nat) :
    ∀ (pages : List (List α)) (acc : List α),
      (∀ p ∈ pages, p.length ≤ 100) → acc.length < mm + 100 →
      (fetchMessagesGo mm pages acc).length < mm + 100 := by
  intro pages
  induction pages with
  | nil => intro acc _ h2; exact h2
  | cons p rest ih =>
    intro acc h1 h2
    simp only [fetchMessagesGo]
    split
    · apply ih (acc ++ p) (fun q hq => h1 q (List.mem_cons_of_mem _ hq))
      have hp := h1 p (List.mem_cons_self _ _)
      rw [List.length_append]
      omega
    · exact h2

theorem fetchMessagesGo_all {α : Type} (mm : Nat) :
    ∀ (pages : List (List α)) (acc : List α),
      (fetchMessagesGo mm pages acc).length < mm →
      fetchMessagesGo mm pages acc = acc ++ pages.flatten := by
  intro pages
  induction pages with
  | nil => intro acc _; simp [fetchMessagesGo]
  | cons p rest ih =>
    intro acc h
    by_cases hlt : acc.length < mm
    · simp only [fetchMessagesGo, hlt, if_pos] at h ⊢
      rw [ih (acc ++ p) h, List.flatten_cons, List.append_assoc]
    · simp only [fetchMessagesGo, hlt, if_neg, if_false] at h

theorem fetchMessagesGo_isPrefix {α : Type} (mm : Nat) :
    ∀ (pages : List (List α)) (acc : List α),
      fetchMessagesGo mm pages acc <+: acc ++ pages.flatten := by
  intro pages
  induction pages with
  | nil => intro acc; simp [fetchMessagesGo]
  | cons p rest ih =>
    intro acc
    by_cases hlt : acc.length < mm
    · simp only [fetchMessagesGo, hlt, if_pos]
      have := ih (acc ++ p)
      rwa [List.flatten_cons, ← List.append_assoc]
    · simp only [fetchMessagesGo, hlt, if_neg, if_false]
      exact ⟨_, rfl⟩

/-- C7 (amended): the pagination loop checks the cap only before a fetch
and appends each fetched page whole, so the retrieved raw messages form a
prefix of the served pages, equal to all of them when shorter than
`maxMessages`; with pages of at most 100 messages the result stays below
`maxMessages + 100` but may exceed `maxMessages` itself. -/
theorem fetch_pagination_amended (pages : List (List Msg)) (maxMessages : Nat)
    (hp : ∀ p ∈ pages, p.length ≤ 100) :
    (fetchMessages pages maxMessages).length < maxMessages + 100 ∧
    ((fetchMessages pages maxMessages).length < maxMessages →
      fetchMessages pages maxMessages = pages.flatten) ∧
    fetchMessages pages maxMessages <+: pages.flatten := by
  refine ⟨?_, ?_, ?_⟩
  · exact fetchMessagesGo_bound maxMessages pages [] hp
      (by simp only [List.length_nil]; omega)
  · intro h
    have h2 := fetchMessagesGo_all maxMessages pages [] h
    simpa using h2
  · have h2 := fetchMessagesGo_isPrefix maxMessages pages []
    simpa using h2

/-- Witness for C7 (amended) at the two-page scenario. -/
theorem fetch_pagination_amended_witness :
    (fetchMessages c7pages 150).length < 250 :=
  (fetch_pagination_amended c7pages 150 (by with_unfolding_all decide)).1

/-!  ## Response Parser block scenario: claim C8  -/

/-- C8 counterexample: on raw text with one well-formed block followed by a
block missing its link line, the parser returns one summary, not two: the
strict strategy matches the well-formed block, and its non-empty result
suppresses the loose per-block strategy. -/
theorem parser_two_block_counterexample :
    (parseResponse c8raw exThreads).length = 1 ∧
    (parseResponse c8raw exThreads).length ≠ 2 := by
  with_unfolding_all decide

/-- C8 (amended): on raw text with one well-formed block and one block
missing its link line the parser returns one summary (the well-formed
block's); the loose strategy — in which a block missing its link line
receives the first fallback thread's permalink — runs only when the strict
pattern matches nowhere, e.g. when both blocks lack link lines, in which
case two summaries are returned carrying the first fallback thread's
permalink. -/
theorem parser_two_block_amended :
    parseResponse c8raw exThreads =
      [⟨str "A", str "https://a.example", 9/10⟩] ∧
    parseStrict c8rawNoLinks exThreads = [] ∧
    parseResponse c8rawNoLinks exThreads =
      [⟨str "A", str "https://t1.example", 9/10⟩,
       ⟨str "B", str "https://t1.example", 4/5⟩] := by
  with_unfolding_all decide

/-!  ## Relevance scores: claim C9  -/

/-- C9 counterexample: a parseable upstream response carrying `Score: 99`
flows through the orchestrator, parser and link validator into a
`ThreadSummary` whose relevance score is 99, outside [0, 1]. -/
theorem score_above_one_counterexample :
    ((generateThreadSummaries bigScoreAttempt 3 1000 exThreads (str "t")).1).map
      (fun s => s.relevanceScore) = [99] ∧
    ¬((99 : ℚ) ≤ 1) := by
  with_unfolding_all decide

theorem parseFloatNum_nonneg (s : List Char) (q : ℚ)
    (h : parseFloatNum s = some q) : 0 ≤ q := by
  simp only [parseFloatNum] at h
  split at h
  · split at h
    · exact absurd h (by simp)
    · have hq := Option.some.inj h
      subst hq
      positivity
  · split at h
    · exact absurd h (by simp)
    · have hq := Option.some.inj h
      subst hq
      positivity

theorem getD_score_nonneg (o : Option ℚ) (h : ∀ q, o = some q → 0 ≤ q) :
    0 ≤ o.getD (1/2 : ℚ) := by
  cases o with
  | none => norm_num
  | some q => simpa using h q rfl

theorem parseStrict_score_nonneg (r : List Char) (ts : List Thread)
    (s : Summary) (h : s ∈ parseStrict r ts) : 0 ≤ s.relevanceScore := by
  rcases List.mem_filterMap.mp h with ⟨caps, _, hf⟩
  split at hf
  · dsimp only at hf
    split at hf
    · exact absurd hf (by simp)
    · have hs := Option.some.inj hf
      subst hs
      exact getD_score_nonneg _ (parseFloatNum_nonneg _)
  · exact absurd hf (by simp)

theorem parseBlock_score (ts : List Thread) (b : List Char) (s : Summary)
    (h : parseBlock ts b = some s) :
    0 ≤ s.relevanceScore ∧
    (findMatch scoreLinePat b = none → s.relevanceScore = 1/2) := by
  unfold parseBlock at h
  dsimp only at h
  rcases hsm : findMatch summaryLinePat b with _ | ⟨caps1, rem1⟩
  · rw [hsm] at h
    simp at h
  · rw [hsm] at h
    rcases caps1 with _ | ⟨g1, _ | ⟨g1b, caps1rest⟩⟩
    · simp at h
    · dsimp only at h
      split at h
      · exact absurd h (by simp)
      · have hs := Option.some.inj h
        subst hs
        constructor
        · dsimp only
          rcases hsc : findMatch scoreLinePat b with _ | ⟨caps2, rem2⟩
          · simp [hsc]
          · rcases caps2 with _ | ⟨g2, _ | ⟨g2b, caps2rest⟩⟩
            · simp [hsc]
            · simp only [hsc]
              exact getD_score_nonneg _ (fun q hq => parseFloatNum_nonneg _ q hq)
            · simp [hsc]
        · intro hnone
          simp [hnone]
    · simp at h

theorem parseLoose_score_nonneg (r : List Char) (ts : List Thread)
    (s : Summary) (h : s ∈ parseLoose r ts) : 0 ≤ s.relevanceScore := by
  rcases List.mem_filterMap.mp h with ⟨b, _, hb⟩
  exact (parseBlock_score ts b s hb).1

theorem mem_mapWithIdx {α β : Type} (f : Nat → α → β) :
    ∀ (l : List α) (i : Nat) (b : β), b ∈ mapWithIdx f i l →
      ∃ j a, j < l.length ∧ b = f (i + j) a := by
  intro l
  induction l with
  | nil => intro i b hb; simp [mapWithIdx] at hb
  | cons a as ih =>
    intro i b hb
    rcases List.mem_cons.mp hb with rfl | hb
    · exact ⟨0, a, by simp, by simp⟩
    · rcases ih (i + 1) b hb with ⟨j, a2, hj, hb2⟩
      refine ⟨j + 1, a2, by simpa using Nat.succ_lt_succ hj, ?_⟩
      rw [hb2]
      congr 1
      omega

theorem score_formula_nonneg (i : Nat) (hi : i < 3) :
    0 ≤ (9/10 : ℚ) - (i : ℚ) * (1/5 : ℚ) := by
  have h2 : (i : ℚ) ≤ 2 := by
    have : i ≤ 2 := Nat.lt_succ_iff.mp hi
    exact_mod_cast this
  nlinarith

theorem fallbackSummaries_score_nonneg (ts : List Thread) (s : Summary)
    (h : s ∈ fallbackSummaries ts) : 0 ≤ s.relevanceScore := by
  unfold fallbackSummaries at h
  rcases mem_mapWithIdx _ _ _ _ h with ⟨j, t, hj, rfl⟩
  have hlen : (List.take 3 ts).length ≤ 3 := List.length_take_le 3 ts
  have hj3 : 0 + j < 3 := by omega
  exact score_formula_nonneg _ hj3

theorem errorFallback_score_nonneg (ts : List Thread) (topic : List Char)
    (s : Summary) (h : s ∈ errorFallback ts topic) : 0 ≤ s.relevanceScore := by
  unfold errorFallback at h
  rcases mem_mapWithIdx _ _ _ _ h with ⟨j, t, hj, rfl⟩
  have hlen : (List.take 3 ts).length ≤ 3 := List.length_take_le 3 ts
  have hj3 : 0 + j < 3 := by omega
  exact score_formula_nonneg _ hj3

theorem parseResponse_score_nonneg (r : List Char) (ts : List Thread)
    (s : Summary) (h : s ∈ parseResponse r ts) : 0 ≤ s.relevanceScore := by
  unfold parseResponse at h
  by_cases h1 : (parseStrict r ts).isEmpty
  · simp only [h1, if_true] at h
    by_cases h2 : (parseLoose r ts).isEmpty
    · simp only [h2, if_true] at h
      exact fallbackSummaries_score_nonneg ts s h
    · simp only [h2, if_false, Bool.false_eq_true] at h
      exact parseLoose_score_nonneg r ts s h
  · simp only [h1, if_false, Bool.false_eq_true] at h
    exact parseStrict_score_nonneg r ts s h

theorem parseResponseJS_score_nonneg (resp : Option (List Char))
    (ts : List Thread) (s : Summary) (h : s ∈ parseResponseJS resp ts) :
    0 ≤ s.relevanceScore := by
  cases resp with
  | some r => exact parseResponse_score_nonneg r ts s h
  | none =>
    simp only [parseResponseJS, parseStrict_undefined, List.isEmpty_nil,
      if_true] at h
    exact fallbackSummaries_score_nonneg ts s h

theorem validateOneE_score (ts : List Thread) (i : Nat) (s0 v : Summary)
    (h : validateOneE ts i s0 = Except.ok v) :
    v.relevanceScore = s0.relevanceScore := by
  unfold validateOneE at h
  dsimp only at h
  split at h
  · injection h with h1
    rw [← h1]
  · split at h
    · exact absurd h (by simp)
    · injection h with h1
      rw [← h1]

theorem validatePermalinksGo_scores (ts : List Thread) :
    ∀ (ss : List Summary) (i : Nat) (out : List Summary),
      validatePermalinksGo ts i ss = Except.ok out →
      ∀ v ∈ out, ∃ s0 ∈ ss, v.relevanceScore = s0.relevanceScore := by
  intro ss
  induction ss with
  | nil =>
    intro i out h v hv
    simp only [validatePermalinksGo] at h
    injection h with h1
    subst h1
    simp at hv
  | cons s0 rest ih =>
    intro i out h v hv
    unfold validatePermalinksGo at h
    rcases hone : validateOneE ts i s0 with e | v0
    · rw [hone] at h
      exact absurd h (by simp)
    · rw [hone] at h
      dsimp only at h
      rcases hGo : validatePermalinksGo ts (i + 1) rest with e2 | vs
      · rw [hGo] at h
        exact absurd h (by simp)
      · rw [hGo] at h
        dsimp only at h
        injection h with h1
        subst h1
        rcases List.mem_cons.mp hv with rfl | hv
        · exact ⟨s0, List.mem_cons_self _ _, validateOneE_score ts i s0 v hone⟩
        · rcases ih (i + 1) vs hGo v hv with ⟨s1, hs1, he⟩
          exact ⟨s1, List.mem_cons_of_mem _ hs1, he⟩

/-- C9 (amended): every `ThreadSummary` produced by the orchestrator with
the parser and link validator has a nonnegative relevance score, and a
loose-strategy block lacking a score line defaults to 0.5; the score is
however not clamped above: a parsed score greater than 1 is passed through
verbatim (see the counterexample). -/
theorem score_nonneg_spec :
    (∀ (attempt : Nat → Except LLMError (List Char)) (mr rd : Nat)
        (threads : List Thread) (topic : List Char) (s : Summary),
      s ∈ (generateThreadSummaries attempt mr rd threads topic).1 →
      0 ≤ s.relevanceScore) ∧
    (∀ (threads : List Thread) (block : List Char) (s : Summary),
      parseBlock threads block = some s →
      findMatch scoreLinePat block = none → s.relevanceScore = 1/2) := by
  constructor
  · intro attempt mr rd threads topic s h
    unfold generateThreadSummaries at h
    dsimp only at h
    rcases hc : (callLLM attempt mr rd).1 with e | resp <;>
      simp only [hc] at h
    · exact errorFallback_score_nonneg threads topic s h
    · rcases hv : validatePermalinks (parseResponseJS resp threads) threads
        with e2 | out <;> simp only [hv] at h
      · exact errorFallback_score_nonneg threads topic s h
      · rcases validatePermalinksGo_scores threads
            (parseResponseJS resp threads) 0 out hv s h with ⟨s0, hs0, he⟩
        rw [he]
        exact parseResponseJS_score_nonneg resp threads s0 hs0
  · intro threads block s h hnone
    exact (parseBlock_score threads block s h).2 hnone

/-- Witness for C9 (amended) at the big-score scenario. -/
theorem score_nonneg_spec_witness :
    0 ≤ (Summary.mk (str "A") (str "http://x") 99).relevanceScore :=
  score_nonneg_spec.1 bigScoreAttempt 3 1000 exThreads (str "t")
    ⟨str "A", str "http://x", 99⟩ (by with_unfolding_all decide)

end Librarian

